import Mathlib

/-!
Shallow embedding of `src/DocTermTable.py` (class `DocTermTable`).

The statistical kernels `two_counts_pvals` and `hc_vals` are imported by the
source from the module `HC_aux`, which is not part of the table code under
verification; the embedding is therefore parameterized by an `HCBackend`
bundle holding those two functions.  P-values are modelled as `Option ℚ`
(`none` plays the role of NaN); HC scores are modelled as `ℚ`.

Python's in-place mutation of the argument table (`dtbl`) performed by the
comparison methods is modelled by returning the post-call state of the
argument alongside the numeric result.  Fallible Python code (raised
exceptions) is modelled with `Except String`.
-/

namespace AA

/-- Abstract backend for the two statistical kernels the table code calls:
`two_counts_pvals` (per-feature p-values of two count vectors) and `hc_vals`
(higher-criticism score and p-value threshold; first argument is the optional
`alpha`, second the `stbl` flag). -/
structure HCBackend where
  twoCountsPvals : List ℤ → List ℤ → List (Option ℚ)
  hcVals : Option ℚ → Bool → List (Option ℚ) → ℚ × ℚ

/-- A document-term matrix: rows are documents, columns are features. -/
abbrev Mat := List (List ℤ)

/-- Column sums of a document-term matrix (`dtm.sum(0)` in the source). -/
def colSums : Mat → List ℤ
  | [] => []
  | [r] => r
  | r :: rs => List.zipWith (fun a b => a + b) r (colSums rs)

/-- Total sum of all matrix entries (`dtm.sum()` in the source). -/
def matSum (m : Mat) : ℤ := (m.map List.sum).sum

/-- Python `list.index`, returning `none` instead of raising when absent. -/
def listIndex : List String → String → Option ℕ
  | [], _ => none
  | x :: xs, w => if x = w then some 0 else (listIndex xs w).map (fun n => n + 1)

/-- One insertion step of Python dict construction: overwrite the value if the
key is present (keeping its position), append otherwise. -/
def dictInsert (d : List (String × ℕ)) (s : String) (i : ℕ) : List (String × ℕ) :=
  if d.any (fun p => p.1 = s) then d.map (fun p => if p.1 = s then (s, i) else p)
  else d ++ [(s, i)]

/-- The Python dict `{s : i for i, s in enumerate(names)}` as an association
list in key-insertion order. -/
def dictOfNames (names : List String) : List (String × ℕ) :=
  names.enum.foldl (fun d p => dictInsert d p.2 p.1) []

/-- State of a `DocTermTable` object: the doc-term matrix `_dtm`, the
vocabulary `_feature_names`, the document-name dict `_doc_names`, the HC
variant flag `_stbl`, and the cached derived data `_counts` (column sums),
`_internal_scores` and `_terms_per_doc`. -/
structure DocTermTable where
  dtm : Mat
  feature_names : List String
  doc_names : List (String × ℕ)
  stbl : Bool
  counts : List ℤ
  internal_scores : List ℚ
  terms_per_doc : List ℤ
deriving Repr, DecidableEq

/-- Embeds `DocTermTable._get_Pvals` acting on given aggregate counts
`selfCounts` (the method reads `self._counts`): assert equal shapes, and with
`within` subtract the candidate counts from the aggregate first, failing on a
negative entry. -/
def getPvalsCountsRaw (B : HCBackend) (selfCounts : List ℤ) (cnts : List ℤ)
    (within : Bool) : Except String (List (Option ℚ)) :=
  let cnt0 := selfCounts
  let cnt1 := cnts
  if cnt0.length ≠ cnt1.length then .error "AssertionError: shape mismatch"
  else if within then
    let cnt2 := List.zipWith (fun a b => a - b) cnt0 cnt1
    if cnt2.any (fun x => x < 0) then .error "ValueError: within invalid"
    else .ok (B.twoCountsPvals cnt1 cnt2)
  else .ok (B.twoCountsPvals cnt1 cnt0)

/-- `DocTermTable._get_Pvals` on a table. -/
def getPvalsCounts (B : HCBackend) (t : DocTermTable) (cnts : List ℤ)
    (within : Bool) : Except String (List (Option ℚ)) :=
  getPvalsCountsRaw B t.counts cnts within

/-- The per-row loop of `DocTermTable.__compute_internal_stat`: for each row,
p-values of the row against the rest (`within=True`, `alpha=0.45`), then the
HC score. -/
def internalScores (B : HCBackend) (counts : List ℤ) (stbl : Bool) :
    Mat → Except String (List ℚ)
  | [] => .ok []
  | row :: rest =>
    match getPvalsCountsRaw B counts row true with
    | .error e => .error e
    | .ok pv =>
      match internalScores B counts stbl rest with
      | .error e => .error e
      | .ok tl => .ok ((B.hcVals (some (45/100)) stbl pv).1 :: tl)

/-- `DocTermTable.__compute_internal_stat`: recompute `_terms_per_doc`,
`_counts` and `_internal_scores` from the current matrix. -/
def computeInternalStat (B : HCBackend) (t0 : DocTermTable) :
    Except String DocTermTable :=
  match internalScores B (colSums t0.dtm) t0.stbl t0.dtm with
  | .error e => .error e
  | .ok scores =>
      .ok { t0 with
              counts := colSums t0.dtm
              terms_per_doc := t0.dtm.map List.sum
              internal_scores := scores }

/-- The document-name defaulting of `DocTermTable.__init__`: generated
`"doc0", "doc1", ...` when the supplied list is empty. -/
def mkNames (dtm : Mat) (document_names : List String) : List String :=
  if document_names = [] then
    (List.range dtm.length).map (fun i => "doc" ++ toString i)
  else document_names

/-- `DocTermTable.__init__`: default document names, truncation to the row
count, the dict of names, the all-zero-counts check, then
`__compute_internal_stat`. -/
def mkTable (B : HCBackend) (dtm : Mat) (feature_names : List String)
    (document_names : List String) (stbl : Bool) : Except String DocTermTable :=
  if matSum dtm = 0 then
    .error "ValueError: seems like all counts are zero"
  else
    computeInternalStat B
      { dtm := dtm, feature_names := feature_names,
        doc_names := dictOfNames ((mkNames dtm document_names).take dtm.length),
        stbl := stbl, counts := [], internal_scores := [], terms_per_doc := [] }

/-- One row of the realignment in `DocTermTable.change_vocabulary`: for each
word of the new vocabulary copy the matching old column (Python
`old_vocab.index` plus column slicing, `try/except` leaving zeros on any
failure), zero otherwise. -/
def realignRow (row : List ℤ) (oldVocab newVocab : List String) : List ℤ :=
  newVocab.map (fun w =>
    match listIndex oldVocab w with
    | some j => row.getD j 0
    | none => 0)

/-- `DocTermTable.change_vocabulary`: rebuild the matrix against the new
vocabulary and recompute the internal statistics.  (In Python this mutates
`self` and returns `None`; the new object state is returned here.) -/
def changeVocabulary (B : HCBackend) (t : DocTermTable)
    (newVocab : List String) : Except String DocTermTable :=
  computeInternalStat B
    { t with dtm := t.dtm.map (fun row => realignRow row t.feature_names newVocab),
             feature_names := newVocab }

/-- The vocabulary check-and-realign preamble shared by `get_Pvals`,
`_get_counts` and `per_doc_Pvals_LOO`: when the argument's features differ
from the receiver's, the argument is realigned in place (a notice is
printed). -/
def realignArg (B : HCBackend) (t dtbl : DocTermTable) :
    Except String DocTermTable :=
  if dtbl.feature_names ≠ t.feature_names then
    changeVocabulary B dtbl t.feature_names
  else .ok dtbl

/-- `DocTermTable.get_Pvals`: realign the argument if needed, then p-values of
its aggregate counts against the receiver (`within=False`).  The second
component is the post-call state of the argument. -/
def get_Pvals (B : HCBackend) (t dtbl : DocTermTable) :
    Except String (List (Option ℚ) × DocTermTable) :=
  match realignArg B t dtbl with
  | .error e => .error e
  | .ok d =>
    match getPvalsCounts B t d.counts false with
    | .error e => .error e
    | .ok pv => .ok (pv, d)

/-- `DocTermTable._get_counts`: realign the argument if needed; with `within`
subtract the argument's counts from the receiver's, failing on a negative
entry.  Returns the adjusted pair and the post-call argument state. -/
def getCountsPair (B : HCBackend) (t dtbl : DocTermTable) (within : Bool) :
    Except String ((List ℤ × List ℤ) × DocTermTable) :=
  match realignArg B t dtbl with
  | .error e => .error e
  | .ok d =>
    if within then
      let cnt0 := List.zipWith (fun a b => a - b) t.counts d.counts
      if cnt0.any (fun x => x < 0) then .error "ValueError: within invalid"
      else .ok ((cnt0, d.counts), d)
    else .ok ((t.counts, d.counts), d)

/-- `DocTermTable.__per_doc_Pvals_LOO`: stack the argument matrix on top of
the receiver's, and for every row of the stacked matrix compute its p-values
against the total counts minus that row (total = receiver's cached `_counts`
plus the column sums of the argument matrix). -/
def perDocPvalsLOOInner (B : HCBackend) (t : DocTermTable) (dtm1 : Mat) :
    List (List (Option ℚ)) :=
  let dtmAll := dtm1 ++ t.dtm
  let s1 := colSums dtm1
  let s := List.zipWith (fun a b => a + b) t.counts s1
  dtmAll.map (fun r => B.twoCountsPvals r (List.zipWith (fun a b => a - b) s r))

/-- `DocTermTable.per_doc_Pvals_LOO`: realign the argument if needed, then the
leave-one-out p-value list.  The second component is the post-call state of
the argument. -/
def perDocPvalsLOO (B : HCBackend) (t dtbl : DocTermTable) :
    Except String (List (List (Option ℚ)) × DocTermTable) :=
  match realignArg B t dtbl with
  | .error e => .error e
  | .ok d => .ok (perDocPvalsLOOInner B t d.dtm, d)

/-- `DocTermTable.collapse_dtm`: replace the matrix by its single column-sum
row.  Nothing else is touched (in particular the cached `_counts` and
`_internal_scores` keep their pre-collapse values). -/
def collapse_dtm (t : DocTermTable) : DocTermTable :=
  { t with dtm := [colSums t.dtm] }

/-- `DocTermTable.get_doc_as_table`: the row of the named document as a fresh
one-row table over the same vocabulary. -/
def get_doc_as_table (B : HCBackend) (t : DocTermTable) (doc_id : String) :
    Except String DocTermTable :=
  match t.doc_names.lookup doc_id with
  | some i => mkTable B [t.dtm.getD i []] t.feature_names [doc_id] t.stbl
  | none => .error "KeyError: unknown document"

/-- `DocTermTable.copy`: rebuild a table from the current matrix, vocabulary,
document names and flag. -/
def copy (B : HCBackend) (t : DocTermTable) : Except String DocTermTable :=
  mkTable B t.dtm t.feature_names (t.doc_names.map (fun p => p.1)) t.stbl

/-- `DocTermTable.add_table`.  With `none` it returns `copy`.  With differing
vocabularies the Python source rebinds the argument to the return value of
`change_vocabulary`, which is `None` (the method mutates in place and returns
nothing), so the following `dtbl._dtm` access raises `AttributeError`; that
crash is modelled as the error branch.  With equal vocabularies the matrices
are stacked row-wise and a fresh table is built. -/
def add_table (B : HCBackend) (t : DocTermTable) (dtbl? : Option DocTermTable) :
    Except String DocTermTable :=
  match dtbl? with
  | none => copy B t
  | some dtbl =>
    if t.feature_names ≠ dtbl.feature_names then
      .error "AttributeError: NoneType object has no attribute _dtm"
    else
      mkTable B (t.dtm ++ dtbl.dtm) t.feature_names
        (t.doc_names.map (fun p => p.1) ++ dtbl.doc_names.map (fun p => p.1))
        t.stbl

/-- The masking loop of `get_HC_rank_features`: each masked feature's p-value
entry (located with `list.index`) is set to NaN; a missing feature or an
out-of-range index is ignored. -/
def maskPvals (features : List String) (pvals : List (Option ℚ))
    (toMask : List String) : List (Option ℚ) :=
  toMask.foldl (fun pv f =>
    match listIndex features f with
    | some i => pv.set i none
    | none => pv) pvals

/-- The opening p-value step of `get_HC_rank_features`: with `within` the raw
`_get_Pvals` on the argument's counts (the argument is left untouched),
otherwise `get_Pvals` (which realigns the argument if needed). -/
def rankStepPvals (B : HCBackend) (t dtbl : DocTermTable) (within : Bool) :
    Except String (List (Option ℚ) × DocTermTable) :=
  if within then (getPvalsCounts B t dtbl.counts true).map (fun pv => (pv, dtbl))
  else get_Pvals B t dtbl

/-- Result of `get_HC_rank_features`: the HC score, the rank (`none` models
NaN), the significant features, and the post-call state of the argument
table. -/
structure RankResult where
  hc : ℚ
  rank : Option ℚ
  feat : List String
  dtblAfter : DocTermTable
deriving Repr, DecidableEq

/-- `DocTermTable.get_HC_rank_features`: p-values of the candidate (honoring
`within`), masking, HC score and threshold, significant features, then the
rank — from the cached internal scores when `LOO == False or within == True`,
and otherwise from the freshly computed leave-one-out distribution (dropping
its first row), failing when that distribution is empty. -/
def get_HC_rank_features (B : HCBackend) (t dtbl : DocTermTable)
    (features_to_mask : List String) (LOO within : Bool) (stblArg : Option Bool) :
    Except String RankResult :=
  let stbl := stblArg.getD t.stbl
  match rankStepPvals B t dtbl within with
  | .error e => .error e
  | .ok (pvals0, dtblAfter) =>
    let pvals := maskPvals t.feature_names pvals0 features_to_mask
    let HCthr := B.hcVals none stbl pvals
    let HC := HCthr.1
    let p_thr := HCthr.2
    let pvals1 := pvals.map (fun p => p.getD 1)
    let feat := ((t.feature_names.zip pvals1).filter
      (fun x => x.2 < p_thr)).map (fun x => x.1)
    let w : ℚ := if within then 1 else 0
    if !LOO || within then
      let lo_hc := t.internal_scores
      let rank : Option ℚ :=
        if 0 < lo_hc.length then
          some ((((lo_hc.filter (fun x => x < HC)).length : ℚ) + w) /
                ((lo_hc.length : ℚ) + 1 - w))
        else none
      .ok ⟨HC, rank, feat, dtblAfter⟩
    else
      match perDocPvalsLOO B t dtblAfter with
      | .error e => .error e
      | .ok (pvList, dtblAfter2) =>
        let looPvals := pvList.drop 1
        if looPvals.length = 0 then .error "ValueError: list of LOO Pvals is empty"
        else
          let lo_hc := looPvals.map (fun pv => (B.hcVals none stbl pv).1)
          let rank : Option ℚ :=
            if 0 < lo_hc.length then
              some ((((lo_hc.filter (fun x => x < HC)).length : ℚ) + w) /
                    ((lo_hc.length : ℚ) + 1 - w))
            else none
          .ok ⟨HC, rank, feat, dtblAfter2⟩

/-- A simple concrete backend used for concrete evaluations: the p-value of a
pair of count vectors is `a0 / (a0 + b0 + 1)` for the leading entries, the HC
score of a p-value list is its leading entry (with threshold 0). -/
def B2 : HCBackend where
  twoCountsPvals a b := [some ((a.headD 0 : ℚ) / ((a.headD 0 : ℚ) + (b.headD 0 : ℚ) + 1))]
  hcVals _ _ l := ((l.headD (some 0)).getD 0, 0)

/-- Modelled from the spec (§4.4 step 5, the wording of claim C2): prepend the
candidate to the table's matrix, recompute the HC score of every document of
the merged corpus other than the prepended candidate (its leading row) against
rest-of-merged-corpus counts (merged total = candidate column sums plus the
table's aggregate counts), and use this freshly computed distribution in place
of the cache in the rank formula of step 4. -/
def looRankFromSpec (B : HCBackend) (t cand : DocTermTable) (hc : ℚ)
    (within stbl : Bool) : Option ℚ :=
  let merged := cand.dtm ++ t.dtm
  let total := List.zipWith (fun a b => a + b) (colSums cand.dtm) t.counts
  let dist := (merged.drop 1).map (fun r =>
    (B.hcVals none stbl
      (B.twoCountsPvals r (List.zipWith (fun a b => a - b) total r))).1)
  let w : ℚ := if within then 1 else 0
  if dist.length = 0 then none
  else some ((((dist.filter (fun x => x < hc)).length : ℚ) + w) /
             ((dist.length : ℚ) + 1 - w))

/-! ### Concrete fixtures

Tables produced by `mkTable B2 ...` on small inputs, written out literally and
tied back to the constructor inside the concrete theorems below. -/

/-- The two-document table `mkTable B2 [[1],[3]] ["a"] ["d0","d1"] true`. -/
def tC2 : DocTermTable :=
  { dtm := [[1],[3]], feature_names := ["a"], doc_names := [("d0",0),("d1",1)],
    stbl := true, counts := [4], internal_scores := [1/5, 3/5],
    terms_per_doc := [1,3] }

/-- The one-document table `mkTable B2 [[3]] ["a"] ["d0"] true`. -/
def dC2 : DocTermTable :=
  { dtm := [[3]], feature_names := ["a"], doc_names := [("d0",0)],
    stbl := true, counts := [3], internal_scores := [3/4], terms_per_doc := [3] }

/-- The one-document table `mkTable B2 [[2]] ["b"] ["d0"] true` (a vocabulary
differing from `tC2`'s). -/
def tB7 : DocTermTable :=
  { dtm := [[2]], feature_names := ["b"], doc_names := [("d0",0)],
    stbl := true, counts := [2], internal_scores := [2/3], terms_per_doc := [2] }

/-- The one-document table `mkTable B2 [[3]] ["z"] ["d0"] true` (a vocabulary
differing from `tC2`'s). -/
def dX : DocTermTable :=
  { dtm := [[3]], feature_names := ["z"], doc_names := [("d0",0)],
    stbl := true, counts := [3], internal_scores := [3/4], terms_per_doc := [3] }

/-- The state of `dX` after realignment to the vocabulary `["a"]`. -/
def dXr : DocTermTable :=
  { dtm := [[0]], feature_names := ["a"], doc_names := [("d0",0)],
    stbl := true, counts := [0], internal_scores := [0], terms_per_doc := [0] }

/-! ### Helper lemmas -/

theorem colSums_nil : colSums [] = [] := rfl

theorem colSums_singleton (r : List ℤ) : colSums [r] = r := rfl

theorem colSums_cons₂ (r q : List ℤ) (rs : Mat) :
    colSums (r :: q :: rs) =
      List.zipWith (fun a b => a + b) r (colSums (q :: rs)) := rfl

theorem zipWith_getD (f : ℤ → ℤ → ℤ) (h0 : f 0 0 = 0) :
    ∀ (a b : List ℤ), a.length = b.length →
      ∀ j, (List.zipWith f a b).getD j 0 = f (a.getD j 0) (b.getD j 0)
  | [], [], _, j => by simp [h0]
  | [], _ :: _, h, _ => by simp at h
  | _ :: _, [], h, _ => by simp at h
  | x :: xs, y :: ys, h, 0 => by simp
  | x :: xs, y :: ys, h, j+1 => by
      simpa using zipWith_getD f h0 xs ys (by simpa using h) j

theorem getD_nonneg_of_mem {r : List ℤ} (h : ∀ x ∈ r, 0 ≤ x) (j : ℕ) :
    0 ≤ r.getD j 0 := by
  rcases lt_or_le j r.length with hj | hj
  · rw [List.getD_eq_getElem _ _ hj]
    exact h _ (List.getElem_mem hj)
  · rw [List.getD_eq_default _ _ hj]

theorem colSums_length : ∀ (m : Mat) (F : ℕ), (∀ r ∈ m, r.length = F) →
    m ≠ [] → (colSums m).length = F
  | [r], F, hw, _ => hw r (by simp)
  | r :: q :: rs, F, hw, _ => by
      have ih := colSums_length (q :: rs) F
        (fun x hx => hw x (List.mem_cons_of_mem _ hx)) (by simp)
      rw [colSums_cons₂, List.length_zipWith, ih, hw r (by simp), min_self]

theorem colSums_getD_nonneg : ∀ (m : Mat) (F : ℕ), (∀ r ∈ m, r.length = F) →
    (∀ r ∈ m, ∀ x ∈ r, 0 ≤ x) → ∀ j, 0 ≤ (colSums m).getD j 0
  | [], _, _, _, j => by simp [colSums_nil]
  | [r], _, _, hnn, j => getD_nonneg_of_mem (hnn r (by simp)) j
  | r :: q :: rs, F, hw, hnn, j => by
      have ih := colSums_getD_nonneg (q :: rs) F
        (fun x hx => hw x (List.mem_cons_of_mem _ hx))
        (fun x hx => hnn x (List.mem_cons_of_mem _ hx)) j
      have hlen : r.length = (colSums (q :: rs)).length := by
        rw [colSums_length (q :: rs) F
          (fun x hx => hw x (List.mem_cons_of_mem _ hx)) (by simp), hw r (by simp)]
      rw [colSums_cons₂, zipWith_getD (fun a b => a + b) (by simp) r _ hlen j]
      exact add_nonneg (getD_nonneg_of_mem (hnn r (by simp)) j) ih

theorem mem_le_colSums : ∀ (m : Mat) (F : ℕ), (∀ r ∈ m, r.length = F) →
    (∀ r ∈ m, ∀ x ∈ r, 0 ≤ x) → ∀ r ∈ m, ∀ j, r.getD j 0 ≤ (colSums m).getD j 0
  | [], _, _, _, x, hx, _ => absurd hx (by simp)
  | [r], _, _, _, x, hx, j => by
      rw [List.mem_singleton] at hx
      subst hx; rw [colSums_singleton]
  | r :: q :: rs, F, hw, hnn, x, hx, j => by
      have hwtl : ∀ y ∈ q :: rs, y.length = F :=
        fun y hy => hw y (List.mem_cons_of_mem _ hy)
      have hnntl : ∀ y ∈ q :: rs, ∀ z ∈ y, 0 ≤ z :=
        fun y hy => hnn y (List.mem_cons_of_mem _ hy)
      have hlen : r.length = (colSums (q :: rs)).length := by
        rw [colSums_length (q :: rs) F hwtl (by simp), hw r (by simp)]
      rw [colSums_cons₂, zipWith_getD (fun a b => a + b) (by simp) r _ hlen j]
      rcases List.mem_cons.mp hx with h | h
      · subst h
        exact le_add_of_nonneg_right (colSums_getD_nonneg (q :: rs) F hwtl hnntl j)
      · exact (mem_le_colSums (q :: rs) F hwtl hnntl x h j).trans
          (le_add_of_nonneg_left (getD_nonneg_of_mem (hnn r (by simp)) j))

theorem getPvalsCountsRaw_within_ok (B : HCBackend) {cnt0 cnt1 : List ℤ}
    (hlen : cnt0.length = cnt1.length)
    (hge : ∀ j < cnt1.length, cnt1.getD j 0 ≤ cnt0.getD j 0) :
    getPvalsCountsRaw B cnt0 cnt1 true =
      .ok (B.twoCountsPvals cnt1 (List.zipWith (fun a b => a - b) cnt0 cnt1)) := by
  have hany : ((List.zipWith (fun a b => a - b) cnt0 cnt1).any
      (fun x => decide (x < 0))) = false := by
    rw [Bool.eq_false_iff]
    intro hc
    rw [List.any_eq_true] at hc
    obtain ⟨x, hx, hxlt⟩ := hc
    obtain ⟨i, hi, hix⟩ := List.mem_iff_getElem.mp hx
    rw [List.getElem_zipWith] at hix
    have hi1 : i < cnt1.length := by
      have := hi; rw [List.length_zipWith, hlen, min_self] at this; exact this
    have hle := hge i hi1
    rw [List.getD_eq_getElem _ _ hi1, List.getD_eq_getElem _ _ (hlen ▸ hi1)] at hle
    rw [← hix] at hxlt
    simp only [decide_eq_true_eq] at hxlt
    omega
  unfold getPvalsCountsRaw
  rw [if_neg (by simp [hlen]), if_pos rfl, if_neg (by simp [hany])]

theorem internalScores_length {B : HCBackend} {counts : List ℤ} {stbl : Bool} :
    ∀ {m : Mat} {l : List ℚ}, internalScores B counts stbl m = .ok l →
      l.length = m.length
  | [], l, h => by
      rw [internalScores] at h
      cases h; rfl
  | row :: rest, l, h => by
      rw [internalScores] at h
      cases hpv : getPvalsCountsRaw B counts row true with
      | error e => rw [hpv] at h; cases h
      | ok pv =>
        rw [hpv] at h
        cases htl : internalScores B counts stbl rest with
        | error e => rw [htl] at h; cases h
        | ok tl =>
          rw [htl] at h
          cases h
          simpa using internalScores_length htl

theorem internalScores_ok_of {B : HCBackend} {counts : List ℤ} (stbl : Bool) :
    ∀ {m : Mat}, (∀ r ∈ m, ∃ pv, getPvalsCountsRaw B counts r true = .ok pv) →
      ∃ l, internalScores B counts stbl m = .ok l
  | [], _ => ⟨[], rfl⟩
  | row :: rest, h => by
      obtain ⟨pv, hpv⟩ := h row (by simp)
      obtain ⟨tl, htl⟩ := internalScores_ok_of stbl
        (fun r hr => h r (List.mem_cons_of_mem _ hr))
      exact ⟨_, by rw [internalScores, hpv, htl]⟩

theorem computeInternalStat_ok_inv {B : HCBackend} {t0 t : DocTermTable}
    (h : computeInternalStat B t0 = .ok t) :
    ∃ scores, internalScores B (colSums t0.dtm) t0.stbl t0.dtm = .ok scores ∧
      t = { t0 with counts := colSums t0.dtm,
                    terms_per_doc := t0.dtm.map List.sum,
                    internal_scores := scores } := by
  unfold computeInternalStat at h
  cases hs : internalScores B (colSums t0.dtm) t0.stbl t0.dtm with
  | error e => rw [hs] at h; cases h
  | ok scores =>
    rw [hs] at h
    cases h
    exact ⟨scores, rfl, rfl⟩

theorem computeInternalStat_ok_of {B : HCBackend} {t0 : DocTermTable}
    {scores : List ℚ}
    (hs : internalScores B (colSums t0.dtm) t0.stbl t0.dtm = .ok scores) :
    computeInternalStat B t0 =
      .ok { t0 with counts := colSums t0.dtm,
                    terms_per_doc := t0.dtm.map List.sum,
                    internal_scores := scores } := by
  unfold computeInternalStat
  rw [hs]

theorem mkTable_ok_inv {B : HCBackend} {dtm : Mat} {fns dns : List String}
    {stbl : Bool} {t : DocTermTable}
    (h : mkTable B dtm fns dns stbl = .ok t) :
    matSum dtm ≠ 0 ∧
    ∃ scores, internalScores B (colSums dtm) stbl dtm = .ok scores ∧
      t = { dtm := dtm, feature_names := fns,
            doc_names := dictOfNames ((mkNames dtm dns).take dtm.length),
            stbl := stbl, counts := colSums dtm,
            internal_scores := scores, terms_per_doc := dtm.map List.sum } := by
  unfold mkTable at h
  split at h
  · cases h
  · next hsum =>
    obtain ⟨scores, hs, ht⟩ := computeInternalStat_ok_inv h
    exact ⟨hsum, scores, hs, ht⟩

theorem changeVocabulary_ok_feature_names {B : HCBackend} {t d : DocTermTable}
    {v : List String} (h : changeVocabulary B t v = .ok d) :
    d.feature_names = v := by
  obtain ⟨scores, _, hd⟩ := computeInternalStat_ok_inv h
  rw [hd]

theorem realignArg_ok_feature_names {B : HCBackend} {t dtbl d : DocTermTable}
    (h : realignArg B t dtbl = .ok d) : d.feature_names = t.feature_names := by
  unfold realignArg at h
  split at h
  · exact changeVocabulary_ok_feature_names h
  · next hne =>
    cases h
    exact not_ne_iff.mp hne

/-! ### Concrete evaluations of the fixtures -/

theorem mk_tC2 : mkTable B2 [[1],[3]] ["a"] ["d0","d1"] true = .ok tC2 := by
  norm_num [mkTable, computeInternalStat, internalScores, getPvalsCountsRaw, B2,
    dictOfNames, dictInsert, colSums, matSum, tC2, List.enum, mkNames]
  all_goals decide

theorem mk_dC2 : mkTable B2 [[3]] ["a"] ["d0"] true = .ok dC2 := by
  norm_num [mkTable, computeInternalStat, internalScores, getPvalsCountsRaw, B2,
    dictOfNames, dictInsert, colSums, matSum, dC2, List.enum, mkNames]

theorem mk_tB7 : mkTable B2 [[2]] ["b"] ["d0"] true = .ok tB7 := by
  norm_num [mkTable, computeInternalStat, internalScores, getPvalsCountsRaw, B2,
    dictOfNames, dictInsert, colSums, matSum, tB7, List.enum, mkNames]

theorem mk_dX : mkTable B2 [[3]] ["z"] ["d0"] true = .ok dX := by
  norm_num [mkTable, computeInternalStat, internalScores, getPvalsCountsRaw, B2,
    dictOfNames, dictInsert, colSums, matSum, dX, List.enum, mkNames]

/-! ### Claim theorems -/

/-- C3: with `within=true`, p-value computation subtracts the external counts
from the table's aggregate counts first and raises an error if any adjusted
count is negative; the p-values are computed (on the adjusted counts) only
when all adjusted counts are nonnegative. -/
theorem c3_within_subtraction (B : HCBackend) (t : DocTermTable)
    (cnts : List ℤ) (hlen : t.counts.length = cnts.length) :
    ((∃ i, i < cnts.length ∧ t.counts.getD i 0 < cnts.getD i 0) →
      ∃ e, getPvalsCounts B t cnts true = .error e) ∧
    ((∀ i < cnts.length, cnts.getD i 0 ≤ t.counts.getD i 0) →
      getPvalsCounts B t cnts true =
        .ok (B.twoCountsPvals cnts
          (List.zipWith (fun a b => a - b) t.counts cnts))) := by
  constructor
  · rintro ⟨i, hi, hlt⟩
    refine ⟨"ValueError: within invalid", ?_⟩
    have hi2 : i < (List.zipWith (fun a b => a - b) t.counts cnts).length := by
      rw [List.length_zipWith, hlen, min_self]; exact hi
    have hany : ((List.zipWith (fun a b => a - b) t.counts cnts).any
        (fun x => decide (x < 0))) = true := by
      rw [List.any_eq_true]
      refine ⟨_, List.mem_iff_getElem.mpr ⟨i, hi2, rfl⟩, ?_⟩
      rw [List.getElem_zipWith]
      simp only [decide_eq_true_eq]
      rw [List.getD_eq_getElem _ _ (hlen ▸ hi), List.getD_eq_getElem _ _ hi] at hlt
      omega
    unfold getPvalsCounts getPvalsCountsRaw
    rw [if_neg (by simp [hlen]), if_pos rfl, if_pos hany]
  · intro hge
    exact getPvalsCountsRaw_within_ok B hlen hge

/-- Witness for `c3_within_subtraction` at a concrete table: aggregate `[4]`,
candidate `[5]` fails, candidate `[3]` yields the p-values of the adjusted
pair. -/
theorem c3_within_subtraction_witness :
    (∃ e, getPvalsCounts B2 tC2 [5] true = .error e) ∧
    getPvalsCounts B2 tC2 [3] true =
      .ok (B2.twoCountsPvals [3]
        (List.zipWith (fun a b => a - b) tC2.counts [3])) := by
  constructor
  · exact (c3_within_subtraction B2 tC2 [5] (by decide)).1 ⟨0, by decide, by decide⟩
  · exact (c3_within_subtraction B2 tC2 [3] (by decide)).2 (by decide)

/-- C4: construction from a matrix whose total sum is zero fails with the
all-counts-zero error, and construction from a nonnegative matrix with
positive total sum succeeds. -/
theorem c4_zero_matrix_construction (B : HCBackend) (dtm : Mat)
    (fns dns : List String) (stbl : Bool) (F : ℕ)
    (hw : ∀ r ∈ dtm, r.length = F) (hnn : ∀ r ∈ dtm, ∀ x ∈ r, 0 ≤ x) :
    (matSum dtm = 0 →
      mkTable B dtm fns dns stbl =
        .error "ValueError: seems like all counts are zero") ∧
    (0 < matSum dtm → ∃ t, mkTable B dtm fns dns stbl = .ok t) := by
  constructor
  · intro h0
    unfold mkTable
    rw [if_pos h0]
  · intro hpos
    have hne : dtm ≠ [] := by
      intro he; subst he; simp [matSum] at hpos
    have hok : ∀ r ∈ dtm, ∃ pv,
        getPvalsCountsRaw B (colSums dtm) r true = .ok pv := by
      intro r hr
      refine ⟨_, getPvalsCountsRaw_within_ok B ?_ ?_⟩
      · rw [colSums_length dtm F hw hne, hw r hr]
      · intro j _
        exact mem_le_colSums dtm F hw hnn r hr j
    obtain ⟨scores, hs⟩ := internalScores_ok_of stbl hok
    refine ⟨{ dtm := dtm, feature_names := fns,
              doc_names := dictOfNames ((mkNames dtm dns).take dtm.length),
              stbl := stbl, counts := colSums dtm, internal_scores := scores,
              terms_per_doc := dtm.map List.sum }, ?_⟩
    unfold mkTable
    rw [if_neg (by omega)]
    exact computeInternalStat_ok_of hs

/-- Witness for `c4_zero_matrix_construction`: the all-zero 3×4 matrix fails,
a positive 2×2 matrix constructs. -/
theorem c4_zero_matrix_construction_witness :
    mkTable B2 [[0,0,0,0],[0,0,0,0],[0,0,0,0]] ["w1","w2","w3","w4"] [] true =
      .error "ValueError: seems like all counts are zero" ∧
    (∃ t, mkTable B2 [[1,2],[3,4]] ["a","b"] [] true = .ok t) :=
  ⟨(c4_zero_matrix_construction B2 _ _ _ _ 4 (by decide) (by decide)).1 (by decide),
   (c4_zero_matrix_construction B2 [[1,2],[3,4]] ["a","b"] [] true 2
      (by decide) (by decide)).2 (by decide)⟩

/-- C5 (amended): for every successfully constructed table the internal-score
cache has length equal to the number of document rows — including one-document
tables, whose cache therefore holds one (generally meaningless) score instead
of being empty. -/
theorem c5_internal_cache_length (B : HCBackend) (dtm : Mat)
    (fns dns : List String) (stbl : Bool) (t : DocTermTable)
    (h : mkTable B dtm fns dns stbl = .ok t) :
    t.internal_scores.length = t.dtm.length ∧ t.dtm = dtm := by
  obtain ⟨-, scores, hs, ht⟩ := mkTable_ok_inv h
  subst ht
  exact ⟨internalScores_length hs, rfl⟩

/-- Witness for `c5_internal_cache_length` on the two-document fixture. -/
theorem c5_internal_cache_length_witness :
    tC2.internal_scores.length = tC2.dtm.length ∧ tC2.dtm = [[1],[3]] :=
  c5_internal_cache_length B2 [[1],[3]] ["a"] ["d0","d1"] true tC2 mk_tC2

/-- Counterexample to C5 as stated: one-document tables (a fresh construction
and the result of `get_doc_as_table`) have an internal-score cache of length
1, not an empty one. -/
theorem c5_one_document_counterexample :
    (mkTable B2 [[2]] ["a"] ["d0"] true).map
        (fun u => u.internal_scores.length) = .ok 1 ∧
    (get_doc_as_table B2 tC2 "d0").map
        (fun u => u.internal_scores.length) = .ok 1 ∧
    (1 : ℕ) ≠ 0 := by
  refine ⟨?_, ?_, by decide⟩
  · norm_num [mkTable, computeInternalStat, internalScores, getPvalsCountsRaw,
      B2, dictOfNames, dictInsert, colSums, matSum, List.enum, mkNames, Except.map]
  · norm_num [get_doc_as_table, mkTable, computeInternalStat, internalScores,
      getPvalsCountsRaw, B2, dictOfNames, dictInsert, colSums, matSum,
      List.enum, mkNames, tC2, List.lookup, Except.map]

/-- C6 (amended): `collapse_dtm` replaces the matrix by its single column-sum
row and leaves every other field — in particular the internal-score cache and
the aggregate counts — unchanged (stale), rather than invalidating the cache. -/
theorem c6_collapse_keeps_cache (t : DocTermTable) :
    (collapse_dtm t).dtm = [colSums t.dtm] ∧
    (collapse_dtm t).internal_scores = t.internal_scores ∧
    (collapse_dtm t).counts = t.counts ∧
    (collapse_dtm t).feature_names = t.feature_names :=
  ⟨rfl, rfl, rfl, rfl⟩

/-- Counterexample to C6 as stated: after collapsing the constructed
two-document fixture, the internal-score cache still holds the two
pre-collapse scores — it is not invalidated to empty. -/
theorem c6_collapse_counterexample :
    mkTable B2 [[1],[3]] ["a"] ["d0","d1"] true = .ok tC2 ∧
    (collapse_dtm tC2).dtm = [[4]] ∧
    (collapse_dtm tC2).internal_scores = [1/5, 3/5] ∧
    ([1/5, 3/5] : List ℚ) ≠ [] :=
  ⟨mk_tC2, by decide, rfl, by simp⟩

theorem listIndex_self (v : List String) (hv : v.Nodup) :
    ∀ (i : ℕ) (hi : i < v.length), listIndex v v[i] = some i := by
  induction v with
  | nil => intro i hi; simp at hi
  | cons x xs ih =>
    intro i hi
    cases i with
    | zero => simp [listIndex]
    | succ n =>
      have hn : n < xs.length := by simpa using hi
      have hx : x ≠ xs[n] := by
        intro he
        exact (List.nodup_cons.mp hv).1 (he ▸ List.getElem_mem hn)
      have htl := ih (List.nodup_cons.mp hv).2 n hn
      simp only [List.getElem_cons_succ, listIndex]
      rw [if_neg hx, htl]
      rfl

theorem realignRow_self (row : List ℤ) (v : List String) (hv : v.Nodup)
    (hlen : row.length = v.length) : realignRow row v v = row := by
  apply List.ext_getElem
  · simp [realignRow, hlen]
  · intro i h1 h2
    simp only [realignRow, List.getElem_map]
    rw [listIndex_self v hv i (by simpa [realignRow] using h1)]
    exact List.getD_eq_getElem _ _ h2

/-- C8: realigning a constructed table to a new vocabulary equal to its
current one is an identity transform — the whole resulting table (in
particular the aggregate counts and the internal scores) equals the
original. -/
theorem c8_realign_identity (B : HCBackend) (dtm : Mat) (fns dns : List String)
    (stbl : Bool) (t : DocTermTable)
    (h : mkTable B dtm fns dns stbl = .ok t) (hnd : fns.Nodup)
    (hw : ∀ r ∈ dtm, r.length = fns.length) :
    changeVocabulary B t t.feature_names = .ok t := by
  obtain ⟨hsum, scores, hs, ht⟩ := mkTable_ok_inv h
  subst ht
  unfold changeVocabulary
  dsimp only
  have hmap : dtm.map (fun row => realignRow row fns fns) = dtm := by
    have hcong : dtm.map (fun row => realignRow row fns fns) =
        dtm.map (fun row => row) :=
      List.map_congr_left (fun r hr => realignRow_self r fns hnd (hw r hr))
    rw [hcong, List.map_id']
  rw [hmap]
  exact computeInternalStat_ok_of hs

/-- Witness for `c8_realign_identity` on the two-document fixture. -/
theorem c8_realign_identity_witness :
    changeVocabulary B2 tC2 tC2.feature_names = .ok tC2 :=
  c8_realign_identity B2 [[1],[3]] ["a"] ["d0","d1"] true tC2 mk_tC2
    (by decide) (by decide)

/-- C9: `add_table` with `None` returns exactly `copy()`, and for a
constructed table that copy succeeds and has the same aggregate counts, the
same number of document rows and the same internal scores as the original. -/
theorem c9_merge_none (B : HCBackend) (dtm : Mat) (fns dns : List String)
    (stbl : Bool) (t : DocTermTable) (h : mkTable B dtm fns dns stbl = .ok t) :
    add_table B t none = copy B t ∧
    ∃ u, copy B t = .ok u ∧ u.counts = t.counts ∧
      u.dtm.length = t.dtm.length ∧ u.internal_scores = t.internal_scores := by
  refine ⟨rfl, ?_⟩
  obtain ⟨hsum, scores, hs, ht⟩ := mkTable_ok_inv h
  subst ht
  unfold copy mkTable
  dsimp only
  rw [if_neg hsum]
  exact ⟨_, computeInternalStat_ok_of hs, rfl, rfl, rfl⟩

/-- Witness for `c9_merge_none` on the two-document fixture. -/
theorem c9_merge_none_witness :
    add_table B2 tC2 none = copy B2 tC2 ∧
    ∃ u, copy B2 tC2 = .ok u ∧ u.counts = tC2.counts ∧
      u.dtm.length = tC2.dtm.length ∧ u.internal_scores = tC2.internal_scores :=
  c9_merge_none B2 [[1],[3]] ["a"] ["d0","d1"] true tC2 mk_tC2

/-- C7 (code bug): merging two constructed tables whose vocabularies differ
does not realign-and-concatenate; the call crashes, because the source rebinds
the argument to the `None` returned by `change_vocabulary` and then accesses
`._dtm` on it. -/
theorem c7_add_table_vocabulary_crash :
    mkTable B2 [[2]] ["b"] ["d0"] true = .ok tB7 ∧
    tC2.feature_names ≠ tB7.feature_names ∧
    add_table B2 tC2 (some tB7) =
      .error "AttributeError: NoneType object has no attribute _dtm" := by
  refine ⟨mk_tB7, by decide, ?_⟩
  show (if tC2.feature_names ≠ tB7.feature_names then
      (.error "AttributeError: NoneType object has no attribute _dtm" :
        Except String DocTermTable)
    else mkTable B2 (tC2.dtm ++ tB7.dtm) tC2.feature_names
      (tC2.doc_names.map (fun p => p.1) ++ tB7.doc_names.map (fun p => p.1))
      tC2.stbl) = .error "AttributeError: NoneType object has no attribute _dtm"
  rw [if_pos (by decide)]

/-- C1: with `LOO=false` the rank returned by `get_HC_rank_features` is
computed from the cached internal scores as
`(#{cached < hc} + [within]) / (#cached + 1 - [within])`, and is the NaN
sentinel (`none`) exactly when the cache is empty; moreover whenever the
p-value step succeeds the whole call succeeds (an empty cache is reported,
not fatal). -/
theorem c1_internal_rank (B : HCBackend) (t dtbl : DocTermTable)
    (mask : List String) (within : Bool) (stblArg : Option Bool) :
    (∀ res, get_HC_rank_features B t dtbl mask false within stblArg = .ok res →
      res.rank = if t.internal_scores = [] then none
        else some
          ((((t.internal_scores.filter (fun x => x < res.hc)).length : ℚ) +
              (if within then (1:ℚ) else 0)) /
            ((t.internal_scores.length : ℚ) + 1 -
              (if within then (1:ℚ) else 0)))) ∧
    (∀ pr, rankStepPvals B t dtbl within = .ok pr →
      ∃ res, get_HC_rank_features B t dtbl mask false within stblArg = .ok res) := by
  constructor
  · intro res h
    cases hstep : rankStepPvals B t dtbl within with
    | error e =>
      simp only [get_HC_rank_features, hstep] at h
      exact Except.noConfusion h
    | ok pr =>
      obtain ⟨pvals0, dA⟩ := pr
      simp only [get_HC_rank_features, hstep, Bool.not_false, Bool.true_or,
        if_true] at h
      rw [Except.ok.injEq] at h
      subst h
      dsimp only
      by_cases hemp : t.internal_scores = []
      · rw [if_pos hemp, if_neg (by simp [hemp])]
      · have hlen : 0 < t.internal_scores.length := List.length_pos.mpr hemp
        rw [if_pos hlen, if_neg hemp]
  · intro pr hstep
    obtain ⟨pvals0, dA⟩ := pr
    cases hX : get_HC_rank_features B t dtbl mask false within stblArg with
    | ok res => exact ⟨res, rfl⟩
    | error e =>
      simp only [get_HC_rank_features, hstep, Bool.not_false, Bool.true_or,
        if_true] at hX
      exact Except.noConfusion hX

/-- Witness for `c1_internal_rank`: the fixture call (`within=true`) returns
rank `(1+1)/(2+1-1) = 1` from the cached scores `[1/5, 3/5]` and candidate HC
`3/5`. -/
theorem c1_internal_rank_witness :
    (⟨3/5, some 1, [], dC2⟩ : RankResult).rank =
      (if tC2.internal_scores = [] then none
        else some
          ((((tC2.internal_scores.filter
                (fun x => x < (⟨3/5, some 1, [], dC2⟩ : RankResult).hc)).length : ℚ) +
              (if true then (1:ℚ) else 0)) /
            ((tC2.internal_scores.length : ℚ) + 1 -
              (if true then (1:ℚ) else 0)))) := by
  refine (c1_internal_rank B2 tC2 dC2 [] true none).1 ⟨3/5, some 1, [], dC2⟩ ?_
  norm_num [get_HC_rank_features, rankStepPvals, getPvalsCounts,
    getPvalsCountsRaw, maskPvals, Except.map, B2, tC2, dC2]

theorem get_Pvals_ok_inv {B : HCBackend} {t dtbl : DocTermTable}
    {pv : List (Option ℚ)} {d : DocTermTable}
    (h : get_Pvals B t dtbl = .ok (pv, d)) :
    realignArg B t dtbl = .ok d ∧ getPvalsCounts B t d.counts false = .ok pv := by
  cases hr : realignArg B t dtbl with
  | error e =>
    simp only [get_Pvals, hr] at h
    exact Except.noConfusion h
  | ok d0 =>
    cases hp : getPvalsCounts B t d0.counts false with
    | error e =>
      simp only [get_Pvals, hr, hp] at h
      exact Except.noConfusion h
    | ok pv0 =>
      simp only [get_Pvals, hr, hp, Except.ok.injEq, Prod.mk.injEq] at h
      obtain ⟨h1, h2⟩ := h
      subst h2; subst h1
      exact ⟨rfl, hp⟩

/-- C2 (amended): leave-one-out rank evaluation — which the code enters only
when `within=false` — computes the rank from the freshly computed
distribution described by the spec (candidate prepended, every remaining row
of the merged matrix re-scored against rest-of-merged counts), in place of
the cache; the resulting rank is never the NaN sentinel, and an empty
comparison distribution would instead make the call fail. -/
theorem c2_loo_rank (B : HCBackend) (t dtbl : DocTermTable) (mask : List String)
    (stblArg : Option Bool) (res : RankResult)
    (h : get_HC_rank_features B t dtbl mask true false stblArg = .ok res) :
    ∃ d, realignArg B t dtbl = .ok d ∧ res.dtblAfter = d ∧
      res.rank = looRankFromSpec B t d res.hc false (stblArg.getD t.stbl) ∧
      res.rank.isSome = true := by
  cases hstep : rankStepPvals B t dtbl false with
  | error e =>
    simp only [get_HC_rank_features, hstep] at h
    exact Except.noConfusion h
  | ok pr =>
    obtain ⟨pvals0, dA⟩ := pr
    have hgp : get_Pvals B t dtbl = .ok (pvals0, dA) := hstep
    obtain ⟨hr, hp⟩ := get_Pvals_ok_inv hgp
    have hfeat : dA.feature_names = t.feature_names :=
      realignArg_ok_feature_names hr
    have hr2 : realignArg B t dA = .ok dA := by
      unfold realignArg
      rw [if_neg (by simp [hfeat])]
    have hloo : perDocPvalsLOO B t dA =
        .ok (perDocPvalsLOOInner B t dA.dtm, dA) := by
      unfold perDocPvalsLOO
      rw [hr2]
    simp only [get_HC_rank_features, hstep, hloo, Bool.not_true, Bool.false_or,
      Bool.false_eq_true, if_false] at h
    by_cases hlen0 : (List.drop 1 (perDocPvalsLOOInner B t dA.dtm)).length = 0
    · rw [if_pos hlen0] at h
      exact Except.noConfusion h
    · rw [if_neg hlen0] at h
      have hlen1 : 0 < ((List.drop 1 (perDocPvalsLOOInner B t dA.dtm)).map
          (fun pv => (B.hcVals none (stblArg.getD t.stbl) pv).1)).length := by
        simpa using Nat.pos_of_ne_zero hlen0
      rw [if_pos hlen1] at h
      rw [Except.ok.injEq] at h
      subst h
      refine ⟨dA, hr, rfl, ?_, rfl⟩
      dsimp only
      unfold looRankFromSpec
      dsimp only
      have hdist : ((dA.dtm ++ t.dtm).drop 1).map (fun r =>
          (B.hcVals none (stblArg.getD t.stbl)
            (B.twoCountsPvals r (List.zipWith (fun a b => a - b)
              (List.zipWith (fun a b => a + b) (colSums dA.dtm) t.counts) r))).1)
          = (List.drop 1 (perDocPvalsLOOInner B t dA.dtm)).map
              (fun pv => (B.hcVals none (stblArg.getD t.stbl) pv).1) := by
        unfold perDocPvalsLOOInner
        dsimp only
        rw [← List.map_drop, List.map_map]
        rw [List.zipWith_comm_of_comm (fun a b => a + b)
          (fun x y => add_comm x y) (colSums dA.dtm) t.counts]
        rfl
      rw [hdist]
      rw [if_neg (by simpa using hlen0)]
      simp

/-- Witness for `c2_loo_rank`: the fixture call with `LOO=true, within=false`
returns rank `1/3`, equal to the spec-described leave-one-out rank. -/
theorem c2_loo_rank_witness :
    ∃ d, realignArg B2 tC2 dC2 = .ok d ∧
      (⟨3/8, some (1/3), [], dC2⟩ : RankResult).dtblAfter = d ∧
      (⟨3/8, some (1/3), [], dC2⟩ : RankResult).rank =
        looRankFromSpec B2 tC2 d
          (⟨3/8, some (1/3), [], dC2⟩ : RankResult).hc false
          ((none : Option Bool).getD tC2.stbl) ∧
      (⟨3/8, some (1/3), [], dC2⟩ : RankResult).rank.isSome = true := by
  refine c2_loo_rank B2 tC2 dC2 [] none ⟨3/8, some (1/3), [], dC2⟩ ?_
  norm_num [get_HC_rank_features, rankStepPvals, get_Pvals, realignArg,
    getPvalsCounts, getPvalsCountsRaw, maskPvals, perDocPvalsLOO,
    perDocPvalsLOOInner, colSums, Except.map, B2, tC2, dC2]

/-- Counterexample to C2 as stated: requesting leave-one-out mode together
with `within=true` does not recompute the comparison distribution — the code
takes the cached-scores branch.  On the fixtures the call returns rank `1`,
while the spec-described freshly computed leave-one-out distribution yields
rank `3/2`. -/
theorem c2_loo_within_counterexample :
    mkTable B2 [[1],[3]] ["a"] ["d0","d1"] true = .ok tC2 ∧
    mkTable B2 [[3]] ["a"] ["d0"] true = .ok dC2 ∧
    get_HC_rank_features B2 tC2 dC2 [] true true none =
      .ok ⟨3/5, some 1, [], dC2⟩ ∧
    looRankFromSpec B2 tC2 dC2 (3/5) true true = some (3/2) ∧
    ((1 : ℚ) ≠ 3/2) := by
  refine ⟨mk_tC2, mk_dC2, ?_, ?_, by norm_num⟩
  · norm_num [get_HC_rank_features, rankStepPvals, getPvalsCounts,
      getPvalsCountsRaw, maskPvals, Except.map, B2, tC2, dC2]
  · norm_num [looRankFromSpec, colSums, B2, tC2, dC2]

/-- C10 (amended): when the argument table's vocabulary differs from the
receiver's, `get_Pvals`, `_get_counts` (hence the two-table test and the
ChiSquare/KS/cosine measures that route through it) and `per_doc_Pvals_LOO`
realign the argument in place to the receiver's vocabulary; rank evaluation
with `within=true`, however, uses the argument's counts directly and leaves
the argument unchanged. -/
theorem c10_argument_realignment (B : HCBackend) (t dtbl : DocTermTable)
    (hne : dtbl.feature_names ≠ t.feature_names) :
    (∀ pv d, get_Pvals B t dtbl = .ok (pv, d) →
      changeVocabulary B dtbl t.feature_names = .ok d) ∧
    (∀ w p d, getCountsPair B t dtbl w = .ok (p, d) →
      changeVocabulary B dtbl t.feature_names = .ok d) ∧
    (∀ l d, perDocPvalsLOO B t dtbl = .ok (l, d) →
      changeVocabulary B dtbl t.feature_names = .ok d) ∧
    (∀ mask LOO stblArg res,
      get_HC_rank_features B t dtbl mask LOO true stblArg = .ok res →
      res.dtblAfter = dtbl) := by
  have hra : realignArg B t dtbl = changeVocabulary B dtbl t.feature_names := by
    unfold realignArg
    rw [if_pos hne]
  refine ⟨?_, ?_, ?_, ?_⟩
  · intro pv d h
    exact hra ▸ (get_Pvals_ok_inv h).1
  · intro w p d h
    cases hr : realignArg B t dtbl with
    | error e =>
      simp only [getCountsPair, hr] at h
      exact Except.noConfusion h
    | ok d0 =>
      rw [← hra, hr]
      simp only [getCountsPair, hr] at h
      cases w with
      | true =>
        by_cases hany : ((List.zipWith (fun a b => a - b) t.counts d0.counts).any
            (fun x => decide (x < 0))) = true
        · rw [if_pos rfl, if_pos hany] at h
          exact Except.noConfusion h
        · rw [if_pos rfl, if_neg hany] at h
          simp only [Except.ok.injEq, Prod.mk.injEq] at h
          rw [h.2]
      | false =>
        rw [if_neg (by simp)] at h
        simp only [Except.ok.injEq, Prod.mk.injEq] at h
        rw [h.2]
  · intro l d h
    cases hr : realignArg B t dtbl with
    | error e =>
      simp only [perDocPvalsLOO, hr] at h
      exact Except.noConfusion h
    | ok d0 =>
      rw [← hra, hr]
      simp only [perDocPvalsLOO, hr, Except.ok.injEq, Prod.mk.injEq] at h
      rw [h.2]
  · intro mask LOO stblArg res h
    cases hpv : getPvalsCounts B t dtbl.counts true with
    | error e =>
      simp only [get_HC_rank_features, rankStepPvals, if_pos, hpv,
        Except.map] at h
      exact Except.noConfusion h
    | ok pv0 =>
      simp only [get_HC_rank_features, rankStepPvals, if_pos, hpv, Except.map,
        Bool.or_true, if_true] at h
      rw [Except.ok.injEq] at h
      subst h
      rfl

/-- Witness for `c10_argument_realignment`: on the fixtures with vocabularies
`["z"]` vs `["a"]`, a successful `get_Pvals` call has realigned the argument
to `dXr` (the `["a"]`-realigned table). -/
theorem c10_argument_realignment_witness :
    changeVocabulary B2 dX tC2.feature_names = .ok dXr := by
  refine (c10_argument_realignment B2 tC2 dX (by decide)).1 [some 0] dXr ?_
  have hcv : changeVocabulary B2 dX ["a"] = .ok dXr := by
    norm_num [changeVocabulary, computeInternalStat, internalScores,
      getPvalsCountsRaw, realignRow, listIndex, colSums, B2, dX, dXr]
    rw [if_neg (show ¬("z" = "a") from by decide)]
    norm_num
  have hra : realignArg B2 tC2 dX = .ok dXr := by
    unfold realignArg
    rw [if_pos (by decide)]
    exact hcv
  unfold get_Pvals
  rw [hra]
  norm_num [getPvalsCounts, getPvalsCountsRaw, B2, dXr, tC2]

/-- Counterexample to C10 as stated: rank evaluation with `within=true` on an
argument whose vocabulary (`["z"]`) differs from the receiver's (`["a"]`)
leaves the argument table entirely unchanged — its matrix, feature names and
internal-score cache are the originals, not those of a realigned table. -/
theorem c10_no_realignment_counterexample :
    mkTable B2 [[3]] ["z"] ["d0"] true = .ok dX ∧
    dX.feature_names ≠ tC2.feature_names ∧
    get_HC_rank_features B2 tC2 dX [] false true none =
      .ok ⟨3/5, some 1, [], dX⟩ ∧
    (⟨3/5, some 1, [], dX⟩ : RankResult).dtblAfter = dX ∧
    dX.feature_names = ["z"] := by
  refine ⟨mk_dX, by decide, ?_, rfl, rfl⟩
  norm_num [get_HC_rank_features, rankStepPvals, getPvalsCounts,
    getPvalsCountsRaw, maskPvals, Except.map, B2, tC2, dX]

end AA
